import Mathlib

/-!
# Verification of the object-diff utility and the document validators

Shallow embedding of `src/diff/object-diff.ts` (the `diff` function) and
`src/validators/document.validator.ts` (the `DocumentValidator` class) of the
`typescript-code-samples` repository, together with proofs about the claims of
the specification.

Modelling choices:
* JavaScript values are modelled by `JSVal`: `null`, `undefined`, booleans,
  numbers (integers plus the distinguished `NaN` value; the examples of the
  spec only involve integral numbers), strings, arrays and plain objects
  (association lists of string keys to values).
* `typeof`, `JSON.stringify`, strict equality on primitives, `Object.keys`
  and property access are embedded as functions on `JSVal`, following the
  JavaScript semantics the source relies on (`typeof NaN = "number"`,
  `NaN !== NaN`, `JSON.stringify(NaN) = "null"`, `JSON.stringify(undefined)`
  is `undefined`, object keys are iterated in insertion order, `new Set`
  deduplicates keeping the first occurrence).
* The recursion of `diff` is implemented with an explicit fuel parameter
  (`diffF`); `diff` applies enough fuel (the combined size of both inputs)
  and lemma `diff_unfold` shows the fuel is irrelevant, so all theorems are
  about the fuel-free `diff`.
* Strings passed to the validators are handled through their character list
  (`String.data`); `null`/`undefined` arguments are modelled by `none`.
-/

/-- JavaScript values, as far as the diff engine observes them. -/
inductive JSVal where
  | vnull
  | vundefined
  | vbool (b : Bool)
  | vnum (n : Int)
  | vnan
  | vstr (s : String)
  | varr (xs : List JSVal)
  | vobj (fs : List (String × JSVal))

mutual

/-- Size measure used as fuel bound for the recursion of `diff`. -/
def jsize : JSVal → Nat
  | .vnull => 1
  | .vundefined => 1
  | .vbool _ => 1
  | .vnum _ => 1
  | .vnan => 1
  | .vstr _ => 1
  | .varr xs => 1 + jsizeList xs
  | .vobj fs => 1 + jsizeFields fs

def jsizeList : List JSVal → Nat
  | [] => 1
  | v :: vs => 1 + jsize v + jsizeList vs

def jsizeFields : List (String × JSVal) → Nat
  | [] => 1
  | (_, v) :: fs => 1 + jsize v + jsizeFields fs

end

/-- `typeof` on the embedded values (note `typeof null = "object"`). -/
def typeOf : JSVal → String
  | .vnull => "object"
  | .vundefined => "undefined"
  | .vbool _ => "boolean"
  | .vnum _ => "number"
  | .vnan => "number"
  | .vstr _ => "string"
  | .varr _ => "object"
  | .vobj _ => "object"

/-- The `value == null` nullish test of the source. -/
def isNullish : JSVal → Bool
  | .vnull => true
  | .vundefined => true
  | _ => false

/-- Strict equality `===` as used by the primitive branch of `diff`
(that branch is only reached for same-`typeof` non-object values;
`NaN !== NaN` is the one non-structural case). -/
def primStrictEq : JSVal → JSVal → Bool
  | .vnan, _ => false
  | _, .vnan => false
  | .vnull, .vnull => true
  | .vundefined, .vundefined => true
  | .vbool a, .vbool b => a == b
  | .vnum a, .vnum b => a == b
  | .vstr a, .vstr b => a == b
  | _, _ => false

/-- One hex digit (lower case, as produced by `JSON.stringify`). -/
def hexDigit (n : Nat) : Char :=
  "0123456789abcdef".data.getD n '0'

/-- JSON escape of a single character inside a string literal. -/
def escChar (c : Char) : String :=
  if c = '"' then "\\\""
  else if c = '\\' then "\\\\"
  else if c = '\n' then "\\n"
  else if c = '\r' then "\\r"
  else if c = '\t' then "\\t"
  else if c.toNat = 8 then "\\b"
  else if c.toNat = 12 then "\\f"
  else if c.toNat < 32 then
    String.mk ['\\', 'u', '0', '0', hexDigit (c.toNat / 16), hexDigit (c.toNat % 16)]
  else String.mk [c]

/-- A JSON string literal for `s`. -/
def jsonQuote (s : String) : String :=
  "\"" ++ String.join (s.data.map escChar) ++ "\""

/-- Join a list of strings with commas (helper for `serializeValue`). -/
def commaJoin : List String → String
  | [] => ""
  | [s] => s
  | s :: rest => s ++ "," ++ commaJoin rest

mutual

/-- `serializeValue` of the source, i.e. `JSON.stringify`: `none` models the
JavaScript `undefined` result (for an `undefined` top-level value). Inside
arrays an `undefined` element prints as `null`; inside objects an entry whose
value serializes to `undefined` is skipped. -/
def serializeValue : JSVal → Option String
  | .vundefined => none
  | .vnull => some "null"
  | .vnan => some "null"
  | .vbool b => some (if b then "true" else "false")
  | .vnum n => some (toString n)
  | .vstr s => some (jsonQuote s)
  | .varr xs => some ("[" ++ commaJoin (serArrElems xs) ++ "]")
  | .vobj fs => some ("\x7b" ++ commaJoin (serObjFields fs) ++ "\x7d")

def serArrElems : List JSVal → List String
  | [] => []
  | x :: rest => (serializeValue x).getD "null" :: serArrElems rest

def serObjFields : List (String × JSVal) → List String
  | [] => []
  | (k, v) :: rest =>
    match serializeValue v with
    | none => serObjFields rest
    | some s => (jsonQuote k ++ ":" ++ s) :: serObjFields rest

end

/-- The JavaScript value obtained by storing `serializeValue v` in a record
field: a string, or `undefined` when the value does not serialize. -/
def serVal (v : JSVal) : JSVal :=
  match serializeValue v with
  | none => .vundefined
  | some s => .vstr s

/-- First-occurrence deduplication, as performed by `[...new Set(keys)]`. -/
def dedupAux (seen : List String) : List String → List String
  | [] => []
  | k :: ks => if seen.contains k then dedupAux seen ks else k :: dedupAux (k :: seen) ks

def dedupKeys (ks : List String) : List String :=
  dedupAux [] ks

/-- `Object.keys`: insertion-ordered keys for objects, canonical index
strings for arrays, nothing for primitives. -/
def rawObjKeys : JSVal → List String
  | .vobj fs => fs.map Prod.fst
  | .varr xs => (List.range xs.length).map (fun i => Nat.repr i)
  | _ => []

/-- All-digit characters test for canonical array indices. -/
def isDigitC (c : Char) : Bool :=
  48 ≤ c.toNat && c.toNat ≤ 57

/-- A canonical array index (`"0"`, `"17"`, ... — no leading zeros). -/
def arrIndex? (k : String) : Option Nat :=
  if k.data ≠ [] ∧ k.data.all isDigitC ∧ (k.data.getD 0 ' ' ≠ '0' ∨ k.data = ['0']) then
    some (k.data.foldl (fun a c => a * 10 + (c.toNat - 48)) 0)
  else none

/-- Property access `obj[k]` for the values the object branch iterates on;
a missing property is `undefined`. -/
def objGet : JSVal → String → JSVal
  | .vobj fs, k => (fs.lookup k).getD .vundefined
  | .varr xs, k =>
    match arrIndex? k with
    | some i => xs.getD i .vundefined
    | none => .vundefined
  | _, _ => .vundefined

/-- The `properties` payload of a change entry: either a mapping of added
keys to their (raw) new values, or the plain list of removed key names. -/
inductive PropsVal where
  | mapping (entries : List (String × JSVal))
  | names (keys : List String)

/-- The `DiffChange` interface: `description` plus the optional fields,
an absent field being `none`. Field order: description, oldValue, newValue,
added, removed, properties. -/
structure DiffChange where
  description : String
  oldValue : Option JSVal
  newValue : Option JSVal
  added : Option JSVal
  removed : Option JSVal
  properties : Option PropsVal

/-- A produced difference: either a bare `DiffChange` entry (as pushed for
the properties-added and properties-removed entries), or a single-entry record
`{ [name]: change }` / `{ [name]: list }` as returned by `diff`. -/
inductive DItem where
  | change (c : DiffChange)
  | nestedOne (key : String) (c : DiffChange)
  | nested (key : String) (items : List DItem)

/-- `DiffResult`: `none` is the `null` result. -/
abbrev DiffResult := Option DItem

/-- The deduplicated key set of a value (`new Set(Object.keys(x))`,
in iteration order). -/
def keySet (x : JSVal) : List String :=
  dedupKeys (rawObjKeys x)

/-- Keys present in `b` but not in `a` (`added` of the object branch;
note `removed` of the object branch is `addedKeys b a`). -/
def addedKeys (a b : JSVal) : List String :=
  (keySet b).filter (fun k => !((keySet a).contains k))

/-- Keys present in both values, in the key order of `a` (`common`). -/
def commonKeys (a b : JSVal) : List String :=
  (keySet a).filter (fun k => (keySet b).contains k)

/-- The non-null recursive results for the common keys (`changes`). -/
def objChanges (recur : JSVal → JSVal → String → DiffResult) (a b : JSVal) : List DItem :=
  ((commonKeys a b).map (fun k => recur (objGet a k) (objGet b k) k)).filterMap id

/-- The `differences` list of the object branch: a properties-added entry
(if any key was added), then a properties-removed entry (if any key was
removed), then the recursive changes. -/
def objDifferences (recur : JSVal → JSVal → String → DiffResult) (a b : JSVal) : List DItem :=
  (if (addedKeys a b).isEmpty then []
   else [.change ⟨"Properties added", none, none, none, none,
          some (.mapping ((addedKeys a b).map (fun k => (k, objGet b k))))⟩])
  ++ (if (addedKeys b a).isEmpty then []
      else [.change ⟨"Properties removed", none, none, none, none, some (.names (addedKeys b a))⟩])
  ++ objChanges recur a b

/-- The object-comparison branch of `diff` (lines 110-146 of the source),
parametrised by the function used for the recursive calls. -/
def objBranch (recur : JSVal → JSVal → String → DiffResult)
    (oldValue newValue : JSVal) (name : String) : DiffResult :=
  if (objDifferences recur oldValue newValue).isEmpty then none
  else some (.nested name (objDifferences recur oldValue newValue))

/-- One step of `diff`, parametrised by the recursive function. Mirrors the
branch order of the source: both nullish, `typeof` mismatch, property added,
property removed, array comparison, object comparison, primitive comparison. -/
def diffStep (recur : JSVal → JSVal → String → DiffResult)
    (oldValue newValue : JSVal) (name : String) : DiffResult :=
  if isNullish oldValue && isNullish newValue then none
  else if typeOf oldValue != typeOf newValue then
    some (.nestedOne name
      ⟨"Type changed from " ++ typeOf oldValue ++ " to " ++ typeOf newValue,
       some (serVal oldValue), some (serVal newValue), none, none, none⟩)
  else if isNullish oldValue then
    some (.nestedOne name ⟨"Property added", none, some (serVal newValue), none, none, none⟩)
  else if isNullish newValue then
    some (.nestedOne name ⟨"Property removed", some (serVal oldValue), none, none, none, none⟩)
  else
    match oldValue, newValue with
    | .varr xs, .varr ys =>
      let oldSerialized := xs.map serializeValue
      let newSerialized := ys.map serializeValue
      let added := ys.filter (fun x => !(oldSerialized.contains (serializeValue x)))
      let removed := xs.filter (fun x => !(newSerialized.contains (serializeValue x)))
      if added.isEmpty && removed.isEmpty then none
      else some (.nestedOne name
        ⟨"Array modified", none, none,
         (if added.isEmpty then none else some (serVal (.varr added))),
         (if removed.isEmpty then none else some (serVal (.varr removed))), none⟩)
    | a, b =>
      if typeOf a == "object" then objBranch recur a b name
      else if primStrictEq a b then none
      else some (.nestedOne name ⟨"Value changed", some a, some b, none, none, none⟩)

/-- Fuelled version of `diff`. -/
def diffF : Nat → JSVal → JSVal → String → DiffResult
  | 0, _, _, _ => none
  | fuel + 1, oldValue, newValue, name => diffStep (diffF fuel) oldValue newValue name

/-- `diff` of the source: compare two values and return the detailed
differences (`none` when the values do not differ). -/
def diff (oldValue newValue : JSVal) (name : String) : DiffResult :=
  diffF (jsize oldValue + jsize newValue) oldValue newValue name

/-! ## Document validators (`DocumentValidator`) -/

/-- `[A-Z]` test. -/
def isUpperC (c : Char) : Bool :=
  65 ≤ c.toNat && c.toNat ≤ 90

/-- The whitespace class `\s` of the normalization regex (ASCII part plus
no-break space; the validators and claims only involve ASCII input). -/
def isJsSpace (c : Char) : Bool :=
  c.toNat == 32 || c.toNat == 9 || c.toNat == 10 || c.toNat == 11 ||
  c.toNat == 12 || c.toNat == 13 || c.toNat == 160

/-- `toUpperCase` on one character (ASCII). -/
def jsUpper (c : Char) : Char :=
  if 97 ≤ c.toNat ∧ c.toNat ≤ 122 then Char.ofNat (c.toNat - 32) else c

/-- `value.replace(/[-\s]/g, '').toUpperCase()` on the character list. -/
def normalizeL (l : List Char) : List Char :=
  (l.filter (fun c => !(c == '-' || isJsSpace c))).map jsUpper

/-- `parseInt` on a digit string (the validators only parse all-digit
slices, where `parseInt` is plain base-10 evaluation). -/
def digitsToNat (l : List Char) : Nat :=
  l.foldl (fun a c => a * 10 + (c.toNat - 48)) 0

namespace DocumentValidator

/-- DNI letter table: index = remainder, value = letter. -/
def DNI_LETTERS : List Char := "TRWAGMYFPDXBNJZSQVHLCKE".data

/-- The regex `^[0-9]{8}[A-Z]$`. -/
def dniRegex (l : List Char) : Bool :=
  l.length == 9 && (l.take 8).all isDigitC && isUpperC (l.getD 8 ' ')

/-- Validates Spanish DNI (8 digits + 1 letter); `none` models a
`null`/`undefined` argument, and the empty string is falsy. -/
def isValidDNI (dni : Option String) : Bool :=
  match dni with
  | none => false
  | some s =>
    if s.data.isEmpty then false
    else
      let normalized := normalizeL s.data
      if dniRegex normalized then
        let number := digitsToNat (normalized.take 8)
        let letter := normalized.getD 8 ' '
        let expectedLetter := DNI_LETTERS.getD (number % 23) ' '
        letter == expectedLetter
      else false

/-- The regex `^[XYZ][0-9]{7}[A-Z]$`. -/
def nieRegex (l : List Char) : Bool :=
  l.length == 9 && (l.getD 0 ' ' == 'X' || l.getD 0 ' ' == 'Y' || l.getD 0 ' ' == 'Z') &&
  ((l.drop 1).take 7).all isDigitC && isUpperC (l.getD 8 ' ')

/-- X, Y, Z map to the digits 0, 1, 2. -/
def niePrefixDigit (c : Char) : Char :=
  if c == 'X' then '0' else if c == 'Y' then '1' else '2'

/-- Validates Spanish NIE (X/Y/Z + 7 digits + 1 letter). -/
def isValidNIE (nie : Option String) : Bool :=
  match nie with
  | none => false
  | some s =>
    if s.data.isEmpty then false
    else
      let normalized := normalizeL s.data
      if nieRegex normalized then
        let numberStr := niePrefixDigit (normalized.getD 0 ' ') :: ((normalized.drop 1).take 7)
        let number := digitsToNat numberStr
        let letter := normalized.getD 8 ' '
        letter == DNI_LETTERS.getD (number % 23) ' '
      else false

/-- The regex `^[0-9]{12}$`. -/
def ssnRegex (l : List Char) : Bool :=
  l.length == 12 && l.all isDigitC

/-- Validates Spanish SSN (2 province + 8 number + 2 checksum digits). -/
def isValidSpanishSSN (ssn : Option String) : Bool :=
  match ssn with
  | none => false
  | some s =>
    if s.data.isEmpty then false
    else
      let normalized := normalizeL s.data
      if ssnRegex normalized then
        let province := digitsToNat (normalized.take 2)
        let number := digitsToNat ((normalized.drop 2).take 8)
        let checksum := digitsToNat (normalized.drop 10)
        if province < 1 ∨ 52 < province then false
        else
          let multiplier := if number < 10000000 then 10000000 else 100000000
          checksum == (province * multiplier + number) % 97
      else false

/-- The regex `^[A-Z]{2}[0-9]{2}[A-Z0-9]{9,30}$`. -/
def ibanRegex (l : List Char) : Bool :=
  (13 ≤ l.length && l.length ≤ 34) &&
  (l.take 2).all isUpperC &&
  ((l.drop 2).take 2).all isDigitC &&
  (l.drop 4).all (fun c => isUpperC c || isDigitC c)

/-- Letter-to-number expansion (A=10, ..., Z=35); characters below code 65
stay as they are. -/
def letterToDigits (c : Char) : List Char :=
  if 65 ≤ c.toNat then (Nat.repr (c.toNat - 55)).data else [c]

/-- Country code and check digits moved to the end. -/
def rearrangeL (l : List Char) : List Char :=
  l.drop 4 ++ l.take 4

/-- The all-digit string fed to the MOD-97 loop. -/
def numericL (l : List Char) : List Char :=
  (rearrangeL l).flatMap letterToDigits

/-- The iterative `remainder = (remainder * 10 + digit) % 97` loop. -/
def mod97 (l : List Char) : Nat :=
  l.foldl (fun r c => (r * 10 + (c.toNat - 48)) % 97) 0

/-- Validates IBAN with full MOD-97 checksum. -/
def isValidIBAN (iban : Option String) : Bool :=
  match iban with
  | none => false
  | some s =>
    if s.data.isEmpty then false
    else
      let normalized := normalizeL s.data
      if ibanRegex normalized then mod97 (numericL normalized) == 1
      else false

end DocumentValidator

mutual

/-- A value containing no `NaN` anywhere (`NaN !== NaN` is the one way a
value can differ from itself). -/
def nanFree : JSVal → Bool
  | .vnull => true
  | .vundefined => true
  | .vbool _ => true
  | .vnum _ => true
  | .vnan => false
  | .vstr _ => true
  | .varr xs => nanFreeList xs
  | .vobj fs => nanFreeFields fs

def nanFreeList : List JSVal → Bool
  | [] => true
  | v :: vs => nanFree v && nanFreeList vs

def nanFreeFields : List (String × JSVal) → Bool
  | [] => true
  | (_, v) :: fs => nanFree v && nanFreeFields fs

end

/-- The DNI acceptance condition as worded by the spec: after normalization
the string matches `^[0-9]{8}[A-Z]$` and its final letter equals the
character of the fixed table at index `number mod 23`. -/
def dniSpec (s : String) : Bool :=
  let l := normalizeL s.data
  DocumentValidator.dniRegex l &&
  (l.getD 8 ' ' == DocumentValidator.DNI_LETTERS.getD (digitsToNat (l.take 8) % 23) ' ')

/-- The SSN acceptance condition as worded by the spec: after normalization
the string is 12 digits, the 2-digit province lies in `[1, 52]`, and the
supplied 2-digit checksum equals
`(province * multiplier + sequenceNumber) mod 97`, where the multiplier is
`10^7` when the 8-digit sequence number is below `10^7` and `10^8`
otherwise. -/
def ssnSpec (s : String) : Bool :=
  let l := normalizeL s.data
  DocumentValidator.ssnRegex l &&
  ((decide (1 ≤ digitsToNat (l.take 2)) && decide (digitsToNat (l.take 2) ≤ 52)) &&
   (digitsToNat (l.drop 10) ==
     (digitsToNat (l.take 2) *
        (if digitsToNat ((l.drop 2).take 8) < 10000000 then 10000000 else 100000000) +
      digitsToNat ((l.drop 2).take 8)) % 97))

/-! ## Basic lemmas about the diff embedding -/

theorem jsize_pos (v : JSVal) : 1 ≤ jsize v := by
  cases v <;> simp [jsize]

theorem jsizeList_pos (xs : List JSVal) : 1 ≤ jsizeList xs := by
  cases xs with
  | nil => simp [jsizeList]
  | cons x xs => simp [jsizeList]; omega

theorem jsizeFields_pos (fs : List (String × JSVal)) : 1 ≤ jsizeFields fs := by
  cases fs with
  | nil => simp [jsizeFields]
  | cons p fs => cases p; simp [jsizeFields]; omega

theorem jsize_getD_lt (xs : List JSVal) (i : Nat) :
    jsize (xs.getD i .vundefined) < jsize (.varr xs) := by
  induction xs generalizing i with
  | nil => simp [List.getD, jsize, jsizeList]
  | cons x xs ih =>
    cases i with
    | zero => simp [jsize, jsizeList]; omega
    | succ i =>
      have h := ih i
      simp only [List.getD_cons_succ]
      simp only [jsize, jsizeList] at h ⊢
      omega

theorem jsize_lookup_lt (fs : List (String × JSVal)) (k : String) :
    jsize ((fs.lookup k).getD .vundefined) < jsize (.vobj fs) := by
  induction fs with
  | nil => simp [List.lookup, jsize, jsizeFields]
  | cons p fs ih =>
    obtain ⟨k', v⟩ := p
    by_cases h : (k == k') = true
    · simp only [List.lookup, h]
      simp only [jsize, jsizeFields, Option.getD_some]
      omega
    · rw [Bool.not_eq_true] at h
      simp only [List.lookup, h]
      simp only [jsize, jsizeFields] at ih ⊢
      omega

theorem objGet_jsize_lt (a : JSVal) (k : String)
    (ha : typeOf a = "object") (hn : isNullish a = false) :
    jsize (objGet a k) < jsize a := by
  cases a
  case vnull => simp [isNullish] at hn
  case vundefined => simp [isNullish] at hn
  case vbool b => simp [typeOf] at ha
  case vnum n => simp [typeOf] at ha
  case vnan => simp [typeOf] at ha
  case vstr s => simp [typeOf] at ha
  case varr xs =>
    have hrw : objGet (.varr xs) k =
        match arrIndex? k with
        | some i => xs.getD i .vundefined
        | none => .vundefined := rfl
    rw [hrw]
    cases arrIndex? k with
    | none => have := jsizeList_pos xs; simp [jsize]; omega
    | some i => exact jsize_getD_lt xs i
  case vobj fs => exact jsize_lookup_lt fs k

theorem objChanges_congr (r1 r2 : JSVal → JSVal → String → DiffResult) (a b : JSVal)
    (h : ∀ k, r1 (objGet a k) (objGet b k) k = r2 (objGet a k) (objGet b k) k) :
    objChanges r1 a b = objChanges r2 a b := by
  unfold objChanges
  rw [funext h]

theorem objBranch_congr (r1 r2 : JSVal → JSVal → String → DiffResult)
    (a b : JSVal) (n : String)
    (h : ∀ k, r1 (objGet a k) (objGet b k) k = r2 (objGet a k) (objGet b k) k) :
    objBranch r1 a b n = objBranch r2 a b n := by
  unfold objBranch objDifferences
  rw [objChanges_congr r1 r2 a b h]

theorem diffStep_congr (r1 r2 : JSVal → JSVal → String → DiffResult)
    (a b : JSVal) (n : String)
    (h : ∀ x y k, jsize x < jsize a → jsize y < jsize b → r1 x y k = r2 x y k) :
    diffStep r1 a b n = diffStep r2 a b n := by
  have hob : ∀ (a b : JSVal), typeOf a = "object" → isNullish a = false →
      typeOf b = "object" → isNullish b = false →
      (∀ x y k, jsize x < jsize a → jsize y < jsize b → r1 x y k = r2 x y k) →
      objBranch r1 a b n = objBranch r2 a b n := by
    intro a b ha hna hb hnb hr
    exact objBranch_congr r1 r2 a b n fun k =>
      hr _ _ k (objGet_jsize_lt a k ha hna) (objGet_jsize_lt b k hb hnb)
  cases a <;> cases b <;> first
    | rfl
    | exact hob _ _ rfl rfl rfl rfl h

theorem diffF_congr (f : Nat) :
    ∀ (g : Nat) (a b : JSVal) (n : String),
      jsize a + jsize b ≤ f → jsize a + jsize b ≤ g → diffF f a b n = diffF g a b n := by
  induction f using Nat.strong_induction_on with
  | _ f ih =>
    intro g a b n hf hg
    have h2 : 2 ≤ jsize a + jsize b := by
      have := jsize_pos a; have := jsize_pos b; omega
    obtain ⟨f', rfl⟩ : ∃ f', f = f' + 1 := ⟨f - 1, by omega⟩
    obtain ⟨g', rfl⟩ : ∃ g', g = g' + 1 := ⟨g - 1, by omega⟩
    show diffStep (diffF f') a b n = diffStep (diffF g') a b n
    apply diffStep_congr
    intro x y k hx hy
    exact ih f' (by omega) g' x y k (by omega) (by omega)

/-- The fuel of `diff` is irrelevant: `diff` satisfies the defining
equation of the source, with branch order as in `diffStep`. -/
theorem diff_unfold (a b : JSVal) (n : String) : diff a b n = diffStep diff a b n := by
  unfold diff
  obtain ⟨m, hm⟩ : ∃ m, jsize a + jsize b = m + 1 :=
    ⟨jsize a + jsize b - 1, by have := jsize_pos a; have := jsize_pos b; omega⟩
  rw [hm]
  show diffStep (diffF m) a b n = _
  apply diffStep_congr
  intro x y k hx hy
  show diffF m x y k = diffF (jsize x + jsize y) x y k
  exact diffF_congr m _ x y k (by omega) (le_refl _)

theorem objBranch_none_iff (r : JSVal → JSVal → String → DiffResult) (a b : JSVal) (n : String) :
    objBranch r a b n = none ↔ objDifferences r a b = [] := by
  unfold objBranch
  split
  next h => simpa [List.isEmpty_iff] using h
  next h =>
    rw [List.isEmpty_iff] at h
    simp [h]

theorem objDifferences_nil_iff (r : JSVal → JSVal → String → DiffResult) (a b : JSVal) :
    objDifferences r a b = [] ↔
      (addedKeys a b = [] ∧ addedKeys b a = [] ∧
       ∀ k ∈ commonKeys a b, r (objGet a k) (objGet b k) k = none) := by
  unfold objDifferences objChanges
  split_ifs with h1 h2 <;>
    simp_all [List.isEmpty_iff, List.filterMap_eq_nil_iff, List.mem_map]

theorem mem_dedupAux (x : String) :
    ∀ (l seen : List String), x ∈ dedupAux seen l ↔ (x ∈ l ∧ x ∉ seen) := by
  intro l
  induction l with
  | nil => intro seen; simp [dedupAux]
  | cons k ks ih =>
    intro seen
    cases hb : seen.contains k with
    | true =>
      have hk : k ∈ seen := List.elem_iff.mp hb
      simp only [dedupAux, hb, if_true, ih, List.mem_cons]
      constructor
      · rintro ⟨hx, hns⟩; exact ⟨Or.inr hx, hns⟩
      · rintro ⟨rfl | hx, hns⟩
        · exact absurd hk hns
        · exact ⟨hx, hns⟩
    | false =>
      have hk : k ∉ seen := fun hm =>
        Bool.noConfusion (Eq.trans (List.elem_iff.mpr hm).symm hb)
      rw [show dedupAux seen (k :: ks) = k :: dedupAux (k :: seen) ks from by
        simp [dedupAux, hb, hk]]
      simp only [List.mem_cons, ih]
      constructor
      · rintro (rfl | ⟨hxs, hnx⟩)
        · exact ⟨Or.inl rfl, hk⟩
        · exact ⟨Or.inr hxs, fun hs => hnx (Or.inr hs)⟩
      · rintro ⟨rfl | hxs, hns⟩
        · exact Or.inl rfl
        · by_cases hx : x = k
          · exact Or.inl hx
          · exact Or.inr ⟨hxs, by simp [List.mem_cons, hx, hns]⟩

theorem mem_keySet (x : String) (v : JSVal) : x ∈ keySet v ↔ x ∈ rawObjKeys v := by
  simp [keySet, dedupKeys, mem_dedupAux]

theorem mem_commonKeys (k : String) (a b : JSVal) :
    k ∈ commonKeys a b ↔ (k ∈ keySet a ∧ k ∈ keySet b) := by
  simp [commonKeys, List.mem_filter, List.elem_iff]

theorem addedKeys_nil_iff (a b : JSVal) :
    addedKeys a b = [] ↔ ∀ k ∈ keySet b, k ∈ keySet a := by
  simp [addedKeys, List.filter_eq_nil_iff, List.elem_iff]

theorem addedKeys_self (a : JSVal) : addedKeys a a = [] := by
  rw [addedKeys_nil_iff]
  intro k hk
  exact hk

theorem beq_symm_aux {α : Type} [BEq α] [LawfulBEq α] (x y : α) : (x == y) = (y == x) := by
  cases hxy : x == y <;> cases hyx : y == x <;> try rfl
  · have := eq_of_beq hyx; subst this; simp at hxy
  · have := eq_of_beq hxy; subst this; simp at hyx

theorem primStrictEq_comm (a b : JSVal) : primStrictEq a b = primStrictEq b a := by
  cases a <;> cases b <;> first
    | rfl
    | exact beq_symm_aux ..

theorem nanFree_objGet (fs : List (String × JSVal)) (k : String)
    (h : nanFreeFields fs = true) : nanFree (objGet (.vobj fs) k) = true := by
  induction fs with
  | nil => rfl
  | cons p fs ih =>
    obtain ⟨k', v⟩ := p
    rw [nanFreeFields, Bool.and_eq_true] at h
    by_cases hb : (k == k') = true
    · show nanFree ((List.lookup k ((k', v) :: fs)).getD .vundefined) = true
      simp only [List.lookup, hb]
      exact h.1
    · rw [Bool.not_eq_true] at hb
      show nanFree ((List.lookup k ((k', v) :: fs)).getD .vundefined) = true
      simp only [List.lookup, hb]
      exact ih h.2

theorem filter_self_ser_nil (xs : List JSVal) :
    xs.filter (fun x => !((xs.map serializeValue).contains (serializeValue x))) = [] := by
  rw [List.filter_eq_nil_iff]
  intro x hx
  simp only [Bool.not_eq_true', Bool.not_eq_false, List.elem_iff, List.mem_map]
  exact ⟨x, hx, rfl⟩

theorem objGet_pair_bound (a b : JSVal) (k : String)
    (ha : typeOf a = "object") (hna : isNullish a = false)
    (hb : typeOf b = "object") (hnb : isNullish b = false)
    (s : Nat) (hs : jsize a + jsize b ≤ s + 1) :
    jsize (objGet a k) + jsize (objGet b k) ≤ s := by
  have h1 := objGet_jsize_lt a k ha hna
  have h2 := objGet_jsize_lt b k hb hnb
  omega

theorem diff_self_none (x : JSVal) (n : String) (hnf : nanFree x = true) :
    diff x x n = none := by
  suffices H : ∀ (s : Nat) (x : JSVal) (n : String),
      jsize x ≤ s → nanFree x = true → diff x x n = none from
    H (jsize x) x n le_rfl hnf
  intro s
  induction s with
  | zero =>
    intro x n hs _
    have := jsize_pos x
    omega
  | succ s ih =>
    intro x n hs hnf
    rw [diff_unfold]
    cases x with
    | vnull => rfl
    | vundefined => rfl
    | vnan => simp [nanFree] at hnf
    | vbool b => simp [diffStep, primStrictEq, typeOf, isNullish]
    | vnum m => simp [diffStep, primStrictEq, typeOf, isNullish]
    | vstr s' => simp [diffStep, primStrictEq, typeOf, isNullish]
    | varr xs =>
      have hadded := filter_self_ser_nil xs
      simp [diffStep, typeOf, isNullish, hadded]
      exact fun x hx => ⟨x, hx, rfl⟩
    | vobj fs =>
      rw [show diffStep diff (.vobj fs) (.vobj fs) n = objBranch diff (.vobj fs) (.vobj fs) n
        from rfl]
      rw [objBranch_none_iff, objDifferences_nil_iff]
      refine ⟨addedKeys_self _, addedKeys_self _, ?_⟩
      intro k _
      apply ih
      · have := objGet_jsize_lt (.vobj fs) k rfl rfl
        omega
      · exact nanFree_objGet fs k hnf

theorem objBranch_none_symm (a b : JSVal) (n m : String)
    (hIH : ∀ k, (diff (objGet a k) (objGet b k) k = none ↔ diff (objGet b k) (objGet a k) k = none)) :
    (objBranch diff a b n = none ↔ objBranch diff b a m = none) := by
  rw [objBranch_none_iff, objBranch_none_iff, objDifferences_nil_iff, objDifferences_nil_iff]
  constructor
  · rintro ⟨h1, h2, h3⟩
    refine ⟨h2, h1, ?_⟩
    intro k hk
    have hmem := (mem_commonKeys k b a).mp hk
    have hk' : k ∈ commonKeys a b := (mem_commonKeys k a b).mpr ⟨hmem.2, hmem.1⟩
    exact (hIH k).mp (h3 k hk')
  · rintro ⟨h1, h2, h3⟩
    refine ⟨h2, h1, ?_⟩
    intro k hk
    have hmem := (mem_commonKeys k a b).mp hk
    have hk' : k ∈ commonKeys b a := (mem_commonKeys k b a).mpr ⟨hmem.2, hmem.1⟩
    exact (hIH k).mpr (h3 k hk')

theorem diff_none_symm (a b : JSVal) (n : String) :
    (diff a b n = none ↔ diff b a n = none) := by
  suffices H : ∀ (s : Nat) (a b : JSVal) (n : String),
      jsize a + jsize b ≤ s → (diff a b n = none ↔ diff b a n = none) from
    H (jsize a + jsize b) a b n le_rfl
  intro s
  induction s with
  | zero =>
    intro a b n hs
    have := jsize_pos a
    have := jsize_pos b
    omega
  | succ s ih =>
    intro a b n hs
    rw [diff_unfold a b n, diff_unfold b a n]
    cases a <;> cases b <;>
      first
      | exact Iff.rfl
      | (simp [diffStep, typeOf, isNullish]; done)
      | (simp [diffStep, typeOf, isNullish, primStrictEq]; exact eq_comm)
      | (simp [diffStep, typeOf, isNullish, primStrictEq]; done)
      | (simp [diffStep, typeOf, isNullish, Bool.and_comm]; done)
      | (simp only [diffStep, typeOf, isNullish]
         refine objBranch_none_symm _ _ n n fun k => ih _ _ k ?_
         exact objGet_pair_bound _ _ k (by rfl) (by rfl) (by rfl) (by rfl) s hs)

/-! ## Claims about the diff engine -/

/-- C1, counterexample: the claim "diff(x, x, n) is absent for all
non-cyclic x, and a result is never returned for two deeply equal values"
fails. First, at the non-cyclic value `NaN`: since `NaN !== NaN`, the
primitive branch reports a value change, so `diff(NaN, NaN, "n")` is not
absent (and `NaN` is deeply equal to itself). Second, the general invariant
also fails for distinct deeply equal values: the one-element arrays holding
the key-reordered objects with fields a: 1 and b: 2 are deeply equal, yet
serialization-based array membership distinguishes them, so a result is
returned. -/
theorem spec_c1_counterexample :
    diff .vnan .vnan "n" ≠ none ∧
    diff (.varr [.vobj [("a", .vnum 1), ("b", .vnum 2)]])
      (.varr [.vobj [("b", .vnum 2), ("a", .vnum 1)]]) "n" ≠ none := by
  constructor
  · have h : diff .vnan .vnan "n" =
        some (.nestedOne "n" ⟨"Value changed", some .vnan, some .vnan, none, none, none⟩) := rfl
    rw [h]
    exact Option.some_ne_none _
  · have h : diff (.varr [.vobj [("a", .vnum 1), ("b", .vnum 2)]])
        (.varr [.vobj [("b", .vnum 2), ("a", .vnum 1)]]) "n" =
        some (.nestedOne "n"
          ⟨"Array modified", none, none,
           some (.vstr "[\x7b\"b\":2,\"a\":1\x7d]"), some (.vstr "[\x7b\"a\":1,\"b\":2\x7d]"),
           none⟩) := rfl
    rw [h]
    exact Option.some_ne_none _

/-- C1, amended: for every non-cyclic value `x` that contains no `NaN` and
every name `n`, `diff x x n` is absent; absence is the equality signal for
all NaN-free deeply-equal-to-itself values. -/
theorem spec_c1_diff_idempotent (x : JSVal) (n : String) (h : nanFree x = true) :
    diff x x n = none :=
  diff_self_none x n h

/-- C1, witness for the amended theorem at a concrete nested object. -/
theorem spec_c1_witness :
    nanFree (.vobj [("a", .vnum 1), ("b", .varr [.vstr "s", .vnull])]) = true ∧
    diff (.vobj [("a", .vnum 1), ("b", .varr [.vstr "s", .vnull])])
      (.vobj [("a", .vnum 1), ("b", .varr [.vstr "s", .vnull])]) "user" = none :=
  ⟨rfl, spec_c1_diff_idempotent (.vobj [("a", .vnum 1), ("b", .varr [.vstr "s", .vnull])]) "user" rfl⟩

/-- C2: evaluation of the code at the example input of the spec. The result
wraps the value-changed record of the common key under the key name
(`{ user: [ { name: {...} } ] }`), not as the bare record
`{ user: [ {...} ] }` stated by the claim and by the doc comment of the
source; the second conjunct records that the claimed shape differs. -/
theorem spec_c2_example_actual_output :
    diff (.vobj [("name", .vstr "John"), ("age", .vnum 30)])
      (.vobj [("name", .vstr "Jane"), ("age", .vnum 30)]) "user" =
      some (.nested "user" [.nestedOne "name"
        ⟨"Value changed", some (.vstr "John"), some (.vstr "Jane"), none, none, none⟩]) ∧
    diff (.vobj [("name", .vstr "John"), ("age", .vnum 30)])
      (.vobj [("name", .vstr "Jane"), ("age", .vnum 30)]) "user" ≠
      some (.nested "user" [.change
        ⟨"Value changed", some (.vstr "John"), some (.vstr "Jane"), none, none, none⟩]) := by
  constructor
  · rfl
  · intro h
    rw [show diff (.vobj [("name", .vstr "John"), ("age", .vnum 30)])
        (.vobj [("name", .vstr "Jane"), ("age", .vnum 30)]) "user" =
        some (.nested "user" [.nestedOne "name"
          ⟨"Value changed", some (.vstr "John"), some (.vstr "Jane"), none, none, none⟩])
      from rfl] at h
    simp at h

/-- C3: for arrays, `diff` treats elements as duplicate-insensitive members
identified by their serialization: the result is exactly the single
array-modified entry computed from the serialized-membership filters (with
`added`/`removed` omitted when empty), it is absent precisely when each
element of either array has its serialization present in the other, and the
spec example evaluates as claimed. -/
theorem spec_c3_array_diff :
    (∀ (xs ys : List JSVal) (n : String),
      diff (.varr xs) (.varr ys) n =
        if (ys.filter (fun y => !((xs.map serializeValue).contains (serializeValue y)))).isEmpty &&
           (xs.filter (fun x => !((ys.map serializeValue).contains (serializeValue x)))).isEmpty then
          none
        else
          some (.nestedOne n
            ⟨"Array modified", none, none,
             (if (ys.filter (fun y => !((xs.map serializeValue).contains (serializeValue y)))).isEmpty
              then none
              else some (serVal (.varr (ys.filter (fun y =>
                !((xs.map serializeValue).contains (serializeValue y))))))),
             (if (xs.filter (fun x => !((ys.map serializeValue).contains (serializeValue x)))).isEmpty
              then none
              else some (serVal (.varr (xs.filter (fun x =>
                !((ys.map serializeValue).contains (serializeValue x))))))),
             none⟩))
    ∧ (∀ (xs ys : List JSVal) (n : String),
        (diff (.varr xs) (.varr ys) n = none ↔
          ((∀ y ∈ ys, ∃ x ∈ xs, serializeValue x = serializeValue y) ∧
           (∀ x ∈ xs, ∃ y ∈ ys, serializeValue y = serializeValue x))))
    ∧ diff (.varr [.vnum 1, .vnum 2, .vnum 3]) (.varr [.vnum 2, .vnum 3, .vnum 4]) "nums" =
        some (.nestedOne "nums"
          ⟨"Array modified", none, none, some (.vstr "[4]"), some (.vstr "[1]"), none⟩) := by
  refine ⟨fun xs ys n => by rw [diff_unfold]; rfl, fun xs ys n => ?_, rfl⟩
  rw [show diff (.varr xs) (.varr ys) n =
      if (ys.filter (fun y => !((xs.map serializeValue).contains (serializeValue y)))).isEmpty &&
         (xs.filter (fun x => !((ys.map serializeValue).contains (serializeValue x)))).isEmpty then
        (none : DiffResult)
      else
        some (.nestedOne n
          ⟨"Array modified", none, none,
           (if (ys.filter (fun y => !((xs.map serializeValue).contains (serializeValue y)))).isEmpty
            then none
            else some (serVal (.varr (ys.filter (fun y =>
              !((xs.map serializeValue).contains (serializeValue y))))))),
           (if (xs.filter (fun x => !((ys.map serializeValue).contains (serializeValue x)))).isEmpty
            then none
            else some (serVal (.varr (xs.filter (fun x =>
              !((ys.map serializeValue).contains (serializeValue x))))))),
           none⟩)
    from by rw [diff_unfold]; rfl]
  by_cases h : ((ys.filter (fun y => !((xs.map serializeValue).contains (serializeValue y)))).isEmpty &&
      (xs.filter (fun x => !((ys.map serializeValue).contains (serializeValue x)))).isEmpty) = true
  · rw [if_pos h]
    rw [Bool.and_eq_true, List.isEmpty_iff, List.isEmpty_iff,
      List.filter_eq_nil_iff, List.filter_eq_nil_iff] at h
    refine iff_of_true rfl ⟨?_, ?_⟩
    · intro y hy
      have := h.1 y hy
      simpa [List.elem_iff, List.mem_map] using this
    · intro x hx
      have := h.2 x hx
      simpa [List.elem_iff, List.mem_map] using this
  · rw [if_neg h]
    refine iff_of_false (Option.some_ne_none _) ?_
    rintro ⟨h1, h2⟩
    apply h
    rw [Bool.and_eq_true, List.isEmpty_iff, List.isEmpty_iff,
      List.filter_eq_nil_iff, List.filter_eq_nil_iff]
    constructor
    · intro y hy
      simpa [List.elem_iff, List.mem_map] using h1 y hy
    · intro x hx
      simpa [List.elem_iff, List.mem_map] using h2 x hx

/-- C4: for two non-array objects, `diff` builds the ordered list: a
properties-added entry (only when keys were added) whose `properties` maps
each added key to its raw new value, then a properties-removed entry (only
when keys were removed) whose `properties` is the plain list of removed key
names, then every non-null recursive diff of the common keys in
key-iteration order; an empty list yields `none`, otherwise the list is
returned under `name`; and the spec example evaluates as claimed. -/
theorem spec_c4_object_diff :
    (∀ (fs1 fs2 : List (String × JSVal)) (n : String),
      diff (.vobj fs1) (.vobj fs2) n =
        (let oldKeys := dedupKeys (fs1.map Prod.fst)
         let newKeys := dedupKeys (fs2.map Prod.fst)
         let added := newKeys.filter (fun k => !(oldKeys.contains k))
         let removed := oldKeys.filter (fun k => !(newKeys.contains k))
         let common := oldKeys.filter (fun k => newKeys.contains k)
         let entries :=
           (if added.isEmpty then []
            else [DItem.change ⟨"Properties added", none, none, none, none,
                   some (.mapping (added.map (fun k => (k, (fs2.lookup k).getD .vundefined))))⟩])
           ++ (if removed.isEmpty then []
               else [DItem.change ⟨"Properties removed", none, none, none, none,
                      some (.names removed)⟩])
           ++ (common.map (fun k =>
                 diff ((fs1.lookup k).getD .vundefined) ((fs2.lookup k).getD .vundefined) k)).filterMap id
         if entries.isEmpty then none else some (.nested n entries)))
    ∧ diff (.vobj [("a", .vnum 1)]) (.vobj [("a", .vnum 1), ("b", .vnum 2)]) "obj" =
        some (.nested "obj" [.change
          ⟨"Properties added", none, none, none, none, some (.mapping [("b", .vnum 2)])⟩]) :=
  ⟨fun fs1 fs2 n => by rw [diff_unfold]; rfl, rfl⟩

/-- C5: whenever the two inputs are not both nullish and their raw `typeof`
tags differ, `diff` returns the single type-changed entry carrying the
serializations of both values, taking precedence over the property-added
and property-removed branches; and `null` against a (non-array) object does
not take this branch: both report `typeof "object"`, so the one-sided
nullish branches fire instead. -/
theorem spec_c5_type_changed :
    (∀ (a b : JSVal) (n : String),
      ¬(isNullish a = true ∧ isNullish b = true) → typeOf a ≠ typeOf b →
      diff a b n = some (.nestedOne n
        ⟨"Type changed from " ++ typeOf a ++ " to " ++ typeOf b,
         some (serVal a), some (serVal b), none, none, none⟩))
    ∧ (∀ (fs : List (String × JSVal)) (n : String),
        diff .vnull (.vobj fs) n =
          some (.nestedOne n ⟨"Property added", none, some (serVal (.vobj fs)), none, none, none⟩))
    ∧ (∀ (fs : List (String × JSVal)) (n : String),
        diff (.vobj fs) .vnull n =
          some (.nestedOne n ⟨"Property removed", some (serVal (.vobj fs)), none, none, none, none⟩)) := by
  refine ⟨fun a b n h1 h2 => ?_, fun fs n => by rw [diff_unfold]; rfl,
    fun fs n => by rw [diff_unfold]; rfl⟩
  rw [diff_unfold]
  have hc1 : (isNullish a && isNullish b) = false := by
    cases ha : isNullish a <;> cases hb : isNullish b <;> simp_all
  have hc2 : (typeOf a != typeOf b) = true := by
    rw [bne_iff_ne]
    exact h2
  simp [diffStep, hc1, hc2]

/-- C5, witness: a string against a number takes the type-changed branch. -/
theorem spec_c5_witness :
    diff (.vstr "x") (.vnum 1) "n" =
      some (.nestedOne "n" ⟨"Type changed from string to number",
        some (.vstr "\"x\""), some (.vstr "1"), none, none, none⟩) := by
  have h := spec_c5_type_changed.1 (.vstr "x") (.vnum 1) "n"
    (by simp [isNullish]) (by decide)
  exact h

/-- C6: detection is symmetric — `diff a b n` is absent exactly when
`diff b a n` is absent, for all values and names (the reported content is
not symmetric, only the presence of a result). -/
theorem spec_c6_symmetric_detection (a b : JSVal) (n : String) :
    (diff a b n = none ↔ diff b a n = none) :=
  diff_none_symm a b n

/-! ## Lemmas about the validators -/

theorem isDigitC_bounds (c : Char) (hc : isDigitC c = true) :
    48 ≤ c.toNat ∧ c.toNat ≤ 57 := by
  simpa [isDigitC] using hc

theorem digit_not_upper (c : Char) (hc : isDigitC c = true) : isUpperC c = false := by
  have h1 := isDigitC_bounds c hc
  simp [isUpperC]
  omega

theorem digit_not_removed (c : Char) (hc : isDigitC c = true) :
    (c == '-' || isJsSpace c) = false := by
  have h1 := isDigitC_bounds c hc
  have h2 : (c == '-') = false := by
    cases hb : c == '-'
    · rfl
    · have hcc := eq_of_beq hb
      subst hcc
      have : ('-').toNat = 45 := rfl
      omega
  have h3 : isJsSpace c = false := by
    simp [isJsSpace]
    omega
  rw [h2, h3]
  rfl

theorem digit_jsUpper (c : Char) (hc : isDigitC c = true) : jsUpper c = c := by
  have h1 := isDigitC_bounds c hc
  unfold jsUpper
  rw [if_neg]
  omega

theorem normalizeL_append_digit (u v : List Char) (c : Char) (hc : isDigitC c = true) :
    normalizeL (u ++ c :: v) = normalizeL u ++ c :: normalizeL v := by
  unfold normalizeL
  rw [List.filter_append, List.map_append]
  congr 1
  rw [List.filter_cons_of_pos]
  · rw [List.map_cons, digit_jsUpper c hc]
  · rw [Bool.not_eq_eq_eq_not, Bool.not_true]
    exact digit_not_removed c hc

theorem foldl_val_from (l : List Char) :
    ∀ a : Nat, l.foldl (fun x c => x * 10 + (c.toNat - 48)) a =
      a * 10 ^ l.length + digitsToNat l := by
  induction l with
  | nil => intro a; simp [digitsToNat]
  | cons c l ih =>
    intro a
    show l.foldl _ (a * 10 + (c.toNat - 48)) = _
    rw [ih]
    have h2 : digitsToNat (c :: l) = (c.toNat - 48) * 10 ^ l.length + digitsToNat l := by
      show l.foldl _ (0 * 10 + (c.toNat - 48)) = _
      rw [ih]
      ring_nf
    rw [h2]
    simp [List.length_cons]
    ring

theorem digitsToNat_append (l1 l2 : List Char) :
    digitsToNat (l1 ++ l2) = digitsToNat l1 * 10 ^ l2.length + digitsToNat l2 := by
  unfold digitsToNat
  rw [List.foldl_append]
  exact foldl_val_from l2 _

theorem foldl_mod_from (l : List Char) :
    ∀ a : Nat, l.foldl (fun r c => (r * 10 + (c.toNat - 48)) % 97) (a % 97) =
      (l.foldl (fun x c => x * 10 + (c.toNat - 48)) a) % 97 := by
  induction l with
  | nil => intro a; rfl
  | cons c l ih =>
    intro a
    show l.foldl _ ((a % 97 * 10 + (c.toNat - 48)) % 97) = _
    have h : (a % 97 * 10 + (c.toNat - 48)) % 97 = (a * 10 + (c.toNat - 48)) % 97 := by
      omega
    rw [h, ih]
    rfl

theorem mod97_eq (l : List Char) : DocumentValidator.mod97 l = digitsToNat l % 97 := by
  have h := foldl_mod_from l 0
  simpa [DocumentValidator.mod97, digitsToNat] using h

theorem rearrange_replace (A B : List Char) :
    ∃ X Y : List Char, ∀ c : Char,
      DocumentValidator.rearrangeL (A ++ c :: B) = X ++ c :: Y := by
  by_cases h4 : 4 ≤ A.length
  · refine ⟨A.drop 4, B ++ A.take 4, fun c => ?_⟩
    unfold DocumentValidator.rearrangeL
    rw [List.drop_append_of_le_length h4, List.take_append_of_le_length h4]
    simp
  · push_neg at h4
    refine ⟨B.drop (3 - A.length) ++ A, B.take (3 - A.length), fun c => ?_⟩
    unfold DocumentValidator.rearrangeL
    rw [List.drop_append_eq_append_drop, List.take_append_eq_append_take]
    have hdA : A.drop 4 = [] := List.drop_eq_nil_of_le (by omega)
    have htA : A.take 4 = A := List.take_of_length_le (by omega)
    rw [hdA, htA]
    rw [show 4 - A.length = (3 - A.length) + 1 from by omega]
    rw [List.drop_succ_cons, List.take_succ_cons]
    simp

theorem letterToDigits_digit (c : Char) (hc : isDigitC c = true) :
    DocumentValidator.letterToDigits c = [c] := by
  have h1 := isDigitC_bounds c hc
  unfold DocumentValidator.letterToDigits
  rw [if_neg]
  omega

theorem numericL_replace (A B X Y : List Char) (c : Char) (hc : isDigitC c = true)
    (h : DocumentValidator.rearrangeL (A ++ c :: B) = X ++ c :: Y) :
    DocumentValidator.numericL (A ++ c :: B) =
      X.flatMap DocumentValidator.letterToDigits ++
        c :: Y.flatMap DocumentValidator.letterToDigits := by
  unfold DocumentValidator.numericL
  rw [h, List.flatMap_append, List.flatMap_cons, letterToDigits_digit c hc]
  simp

theorem ibanRegex_replace (A B : List Char) (c c' : Char)
    (hc : isDigitC c = true) (hc' : isDigitC c' = true)
    (h : DocumentValidator.ibanRegex (A ++ c :: B) = true) :
    DocumentValidator.ibanRegex (A ++ c' :: B) = true := by
  match A with
  | [] =>
    exfalso
    simp only [List.nil_append, DocumentValidator.ibanRegex, Bool.and_eq_true] at h
    obtain ⟨⟨⟨_, htake2⟩, _⟩, _⟩ := h
    rw [show (c :: B).take 2 = c :: B.take 1 from rfl, List.all_cons,
      digit_not_upper c hc] at htake2
    simp at htake2
  | [a1] =>
    exfalso
    simp only [List.cons_append, List.nil_append, DocumentValidator.ibanRegex,
      Bool.and_eq_true] at h
    obtain ⟨⟨⟨_, htake2⟩, _⟩, _⟩ := h
    rw [show (a1 :: c :: B).take 2 = [a1, c] from rfl, List.all_cons, List.all_cons,
      digit_not_upper c hc] at htake2
    simp at htake2
  | a1 :: a2 :: A' =>
    simp only [List.cons_append, DocumentValidator.ibanRegex, Bool.and_eq_true,
      decide_eq_true_eq] at h ⊢
    obtain ⟨⟨⟨hlen, ht2⟩, hmid⟩, hd4⟩ := h
    have hlen' : (a1 :: a2 :: (A' ++ c' :: B)).length = (a1 :: a2 :: (A' ++ c :: B)).length := by
      simp
    refine ⟨⟨⟨?_, ?_⟩, ?_⟩, ?_⟩
    · rw [hlen']; exact hlen
    · rw [show (a1 :: a2 :: (A' ++ c' :: B)).take 2 = [a1, a2] from rfl]
      rw [show (a1 :: a2 :: (A' ++ c :: B)).take 2 = [a1, a2] from rfl] at ht2
      exact ht2
    · rw [show (a1 :: a2 :: (A' ++ c' :: B)).drop 2 = A' ++ c' :: B from rfl]
      rw [show (a1 :: a2 :: (A' ++ c :: B)).drop 2 = A' ++ c :: B from rfl] at hmid
      match A' with
      | [] =>
        rw [show (([] : List Char) ++ c' :: B).take 2 = c' :: B.take 1 from rfl]
        rw [show (([] : List Char) ++ c :: B).take 2 = c :: B.take 1 from rfl] at hmid
        rw [List.all_cons] at hmid ⊢
        rw [hc']
        rw [hc] at hmid
        simpa using hmid
      | [b1] =>
        rw [show (([b1] : List Char) ++ c' :: B).take 2 = [b1, c'] from rfl]
        rw [show (([b1] : List Char) ++ c :: B).take 2 = [b1, c] from rfl] at hmid
        rw [List.all_cons, List.all_cons] at hmid ⊢
        rw [hc']
        rw [hc] at hmid
        simpa using hmid
      | b1 :: b2 :: A'' =>
        rw [show ((b1 :: b2 :: A'') ++ c' :: B).take 2 = [b1, b2] from rfl]
        rw [show ((b1 :: b2 :: A'') ++ c :: B).take 2 = [b1, b2] from rfl] at hmid
        exact hmid
    · rw [show (a1 :: a2 :: (A' ++ c' :: B)).drop 4 = (A' ++ c' :: B).drop 2 from rfl]
      rw [show (a1 :: a2 :: (A' ++ c :: B)).drop 4 = (A' ++ c :: B).drop 2 from rfl] at hd4
      match A' with
      | [] =>
        rw [show (([] : List Char) ++ c' :: B).drop 2 = B.drop 1 from rfl]
        rw [show (([] : List Char) ++ c :: B).drop 2 = B.drop 1 from rfl] at hd4
        exact hd4
      | [b1] =>
        rw [show (([b1] : List Char) ++ c' :: B).drop 2 = B from rfl]
        rw [show (([b1] : List Char) ++ c :: B).drop 2 = B from rfl] at hd4
        exact hd4
      | b1 :: b2 :: A'' =>
        rw [show ((b1 :: b2 :: A'') ++ c' :: B).drop 2 = A'' ++ c' :: B from rfl]
        rw [show ((b1 :: b2 :: A'') ++ c :: B).drop 2 = A'' ++ c :: B from rfl] at hd4
        rw [List.all_append, List.all_cons] at hd4 ⊢
        rw [Bool.and_eq_true, Bool.and_eq_true] at hd4 ⊢
        refine ⟨hd4.1, ?_, hd4.2.2⟩
        rw [hc']
        simp

theorem digitsToNat_middle (P S : List Char) (d : Char) :
    digitsToNat (P ++ d :: S) =
      (digitsToNat P * 10 + (d.toNat - 48)) * 10 ^ S.length + digitsToNat S := by
  rw [digitsToNat_append]
  have hcons : digitsToNat (d :: S) = (d.toNat - 48) * 10 ^ S.length + digitsToNat S := by
    show S.foldl _ (0 * 10 + (d.toNat - 48)) = _
    rw [foldl_val_from]
    ring_nf
  rw [hcons, List.length_cons]
  ring

theorem mod97_replace_ne (P S : List Char) (c c' : Char)
    (hc : isDigitC c = true) (hc' : isDigitC c' = true) (hne : c ≠ c')
    (h1 : digitsToNat (P ++ c :: S) % 97 = 1) :
    digitsToNat (P ++ c' :: S) % 97 ≠ 1 := by
  intro h2
  have b1 := isDigitC_bounds c hc
  have b2 := isDigitC_bounds c' hc'
  have hdv : c.toNat - 48 ≠ c'.toNat - 48 := by
    intro he
    apply hne
    have ht : c.toNat = c'.toNat := by omega
    have := congrArg Char.ofNat ht
    rwa [Char.ofNat_toNat, Char.ofNat_toNat] at this
  have hz : ((digitsToNat (P ++ c :: S) : ℤ)) % 97 = ((digitsToNat (P ++ c' :: S) : ℤ)) % 97 := by
    have h12 := h1.trans h2.symm
    have := congrArg (Nat.cast : ℕ → ℤ) h12
    push_cast at this
    exact this
  have hdvd : (97 : ℤ) ∣ (digitsToNat (P ++ c' :: S) : ℤ) - (digitsToNat (P ++ c :: S) : ℤ) :=
    Int.ModEq.dvd hz
  have hdiff : (digitsToNat (P ++ c' :: S) : ℤ) - (digitsToNat (P ++ c :: S) : ℤ) =
      (((c'.toNat - 48 : ℕ) : ℤ) - ((c.toNat - 48 : ℕ) : ℤ)) * 10 ^ S.length := by
    rw [digitsToNat_middle, digitsToNat_middle]
    push_cast
    ring
  rw [hdiff] at hdvd
  have hp : Prime (97 : ℤ) := by
    rw [Int.prime_iff_natAbs_prime]
    norm_num
  rcases (hp.dvd_mul).mp hdvd with hd | hd
  · obtain ⟨m, hm⟩ := hd
    omega
  · have h10 := hp.dvd_of_dvd_pow hd
    norm_num at h10

/-- C8: for every accepted IBAN string, changing any single digit character
to a different digit yields a rejected string: the iterative MOD-97
accumulation equals the value of the rearranged numeric form modulo 97, and
a single-digit substitution changes that value by `d * 10^k mod 97 ≠ 0`. -/
theorem spec_c8_iban_single_digit (u v : List Char) (c c' : Char)
    (hc : isDigitC c = true) (hc' : isDigitC c' = true) (hne : c ≠ c')
    (hvalid : DocumentValidator.isValidIBAN (some ⟨u ++ c :: v⟩) = true) :
    DocumentValidator.isValidIBAN (some ⟨u ++ c' :: v⟩) = false := by
  have hne1 : (u ++ c :: v).isEmpty = false := by cases u <;> rfl
  have hne2 : (u ++ c' :: v).isEmpty = false := by cases u <;> rfl
  have hval' : (if (u ++ c :: v).isEmpty then false
      else if DocumentValidator.ibanRegex (normalizeL (u ++ c :: v)) then
        DocumentValidator.mod97 (DocumentValidator.numericL (normalizeL (u ++ c :: v))) == 1
      else false) = true := hvalid
  rw [hne1] at hval'
  simp only [Bool.false_eq_true, if_false] at hval'
  show (if (u ++ c' :: v).isEmpty then false
      else if DocumentValidator.ibanRegex (normalizeL (u ++ c' :: v)) then
        DocumentValidator.mod97 (DocumentValidator.numericL (normalizeL (u ++ c' :: v))) == 1
      else false) = false
  rw [hne2]
  simp only [Bool.false_eq_true, if_false]
  have hnsplit := normalizeL_append_digit u v c hc
  have hnsplit' := normalizeL_append_digit u v c' hc'
  by_cases hr : DocumentValidator.ibanRegex (normalizeL (u ++ c :: v)) = true
  · have hmod : DocumentValidator.mod97
        (DocumentValidator.numericL (normalizeL (u ++ c :: v))) = 1 := by
      rw [hr] at hval'
      simpa using hval'
    rw [hnsplit] at hr hmod
    have hr' : DocumentValidator.ibanRegex (normalizeL u ++ c' :: normalizeL v) = true :=
      ibanRegex_replace (normalizeL u) (normalizeL v) c c' hc hc' hr
    obtain ⟨X, Y, hXY⟩ := rearrange_replace (normalizeL u) (normalizeL v)
    have hnum := numericL_replace (normalizeL u) (normalizeL v) X Y c hc (hXY c)
    have hnum' := numericL_replace (normalizeL u) (normalizeL v) X Y c' hc' (hXY c')
    have h1 : digitsToNat (X.flatMap DocumentValidator.letterToDigits ++
        c :: Y.flatMap DocumentValidator.letterToDigits) % 97 = 1 := by
      rw [mod97_eq, hnum] at hmod
      exact hmod
    have h2 := mod97_replace_ne (X.flatMap DocumentValidator.letterToDigits)
      (Y.flatMap DocumentValidator.letterToDigits) c c' hc hc' hne h1
    rw [hnsplit', hr']
    simp only [if_true]
    rw [mod97_eq, hnum']
    simpa using h2
  · rw [if_neg hr] at hval'
    exact absurd hval' (by simp)

/-- C8, witness: a correctly checksummed IBAN is accepted, and the theorem
applied at its last digit (changed from 0 to 1) rejects the result. -/
theorem spec_c8_witness :
    DocumentValidator.isValidIBAN (some ⟨"ES820000000000000000000".data ++ '0' :: []⟩) = true ∧
    DocumentValidator.isValidIBAN (some ⟨"ES820000000000000000000".data ++ '1' :: []⟩) = false :=
  ⟨by decide, spec_c8_iban_single_digit "ES820000000000000000000".data [] '0' '1'
    (by decide) (by decide) (by decide) (by decide)⟩

/-- C7: `isValidDNI` accepts exactly the strings whose normalization matches
`^[0-9]{8}[A-Z]$` with the final letter equal to the table character at
index `number mod 23`, and the two spec examples evaluate as claimed. -/
theorem spec_c7_dni :
    (∀ s : String, DocumentValidator.isValidDNI (some s) = dniSpec s)
    ∧ DocumentValidator.isValidDNI (some "12345678Z") = true
    ∧ DocumentValidator.isValidDNI (some "12345678A") = false := by
  refine ⟨fun s => ?_, rfl, rfl⟩
  obtain ⟨l⟩ := s
  cases l with
  | nil => rfl
  | cons a as =>
    have hlhs : DocumentValidator.isValidDNI (some ⟨a :: as⟩) =
        (if DocumentValidator.dniRegex (normalizeL (a :: as)) then
          ((normalizeL (a :: as)).getD 8 ' ' ==
            DocumentValidator.DNI_LETTERS.getD
              (digitsToNat ((normalizeL (a :: as)).take 8) % 23) ' ')
        else false) := rfl
    have hrhs : dniSpec ⟨a :: as⟩ =
        (DocumentValidator.dniRegex (normalizeL (a :: as)) &&
          ((normalizeL (a :: as)).getD 8 ' ' ==
            DocumentValidator.DNI_LETTERS.getD
              (digitsToNat ((normalizeL (a :: as)).take 8) % 23) ' ')) := rfl
    rw [hlhs, hrhs]
    cases hr : DocumentValidator.dniRegex (normalizeL (a :: as)) <;> simp [hr]

/-- C9: `isValidSpanishSSN` accepts exactly the 12-digit normalized strings
whose province lies in `[1, 52]` and whose supplied checksum equals
`(province * multiplier + sequenceNumber) mod 97` with the claimed
multiplier selection; and a province of 0 or 53 is rejected regardless of
the rest of the string. -/
theorem spec_c9_ssn :
    (∀ s : String, DocumentValidator.isValidSpanishSSN (some s) = ssnSpec s)
    ∧ (∀ t : List Char,
        DocumentValidator.isValidSpanishSSN (some ⟨'0' :: '0' :: t⟩) = false ∧
        DocumentValidator.isValidSpanishSSN (some ⟨'5' :: '3' :: t⟩) = false) := by
  refine ⟨fun s => ?_, fun t => ⟨?_, ?_⟩⟩
  · obtain ⟨l⟩ := s
    cases l with
    | nil => rfl
    | cons a as =>
      have hlhs : DocumentValidator.isValidSpanishSSN (some ⟨a :: as⟩) =
          (if DocumentValidator.ssnRegex (normalizeL (a :: as)) then
            (if digitsToNat ((normalizeL (a :: as)).take 2) < 1 ∨
                52 < digitsToNat ((normalizeL (a :: as)).take 2) then false
             else (digitsToNat ((normalizeL (a :: as)).drop 10) ==
               (digitsToNat ((normalizeL (a :: as)).take 2) *
                  (if digitsToNat (((normalizeL (a :: as)).drop 2).take 8) < 10000000
                   then 10000000 else 100000000) +
                digitsToNat (((normalizeL (a :: as)).drop 2).take 8)) % 97))
          else false) := rfl
      have hrhs : ssnSpec ⟨a :: as⟩ =
          (DocumentValidator.ssnRegex (normalizeL (a :: as)) &&
            ((decide (1 ≤ digitsToNat ((normalizeL (a :: as)).take 2)) &&
              decide (digitsToNat ((normalizeL (a :: as)).take 2) ≤ 52)) &&
             (digitsToNat ((normalizeL (a :: as)).drop 10) ==
               (digitsToNat ((normalizeL (a :: as)).take 2) *
                  (if digitsToNat (((normalizeL (a :: as)).drop 2).take 8) < 10000000
                   then 10000000 else 100000000) +
                digitsToNat (((normalizeL (a :: as)).drop 2).take 8)) % 97))) := rfl
      rw [hlhs, hrhs]
      cases hr : DocumentValidator.ssnRegex (normalizeL (a :: as))
      · simp [hr]
      · simp only [hr, Bool.true_and, if_true]
        by_cases hp : digitsToNat ((normalizeL (a :: as)).take 2) < 1 ∨
            52 < digitsToNat ((normalizeL (a :: as)).take 2)
        · rw [if_pos hp]
          rcases hp with hp | hp
          · rw [decide_eq_false (by omega : ¬ 1 ≤ digitsToNat ((normalizeL (a :: as)).take 2))]
            simp
          · rw [decide_eq_false (by omega : ¬ digitsToNat ((normalizeL (a :: as)).take 2) ≤ 52)]
            simp
        · rw [if_neg hp]
          push_neg at hp
          rw [decide_eq_true (by omega : 1 ≤ digitsToNat ((normalizeL (a :: as)).take 2)),
            decide_eq_true (by omega : digitsToNat ((normalizeL (a :: as)).take 2) ≤ 52)]
          simp
  · show (if DocumentValidator.ssnRegex ('0' :: '0' :: normalizeL t) = true
        then false else false) = false
    exact ite_self false
  · show (if DocumentValidator.ssnRegex ('5' :: '3' :: normalizeL t) = true
        then false else false) = false
    exact ite_self false

/-- C10: every validator maps a `null`/`undefined` argument (modelled by
`none`) and the empty string to `false`; all four validators are total
boolean functions of their input, so no input can raise an exception. -/
theorem spec_c10_nullish_and_empty :
    DocumentValidator.isValidDNI none = false ∧
    DocumentValidator.isValidDNI (some "") = false ∧
    DocumentValidator.isValidNIE none = false ∧
    DocumentValidator.isValidNIE (some "") = false ∧
    DocumentValidator.isValidSpanishSSN none = false ∧
    DocumentValidator.isValidSpanishSSN (some "") = false ∧
    DocumentValidator.isValidIBAN none = false ∧
    DocumentValidator.isValidIBAN (some "") = false :=
  ⟨rfl, rfl, rfl, rfl, rfl, rfl, rfl, rfl⟩
